import Mathlib

/-!
Verification of the import-edit synthesizer and migration listener of
`packages/eslint-plugin/src/rules/migrate-from-lingui.ts`.

The TypeScript source is shallowly embedded: import statements, their
specifiers and the token stream ESLint exposes for them become inductive
data; `getOrInsertImport`, `eligibleForJSXTagNameExpression`,
`jsxAttributeString` and the `translationJSX` listener body become Lean
functions mirroring the source control flow.
-/

namespace Hi18n

/-! ## Decimal rendering of naturals

Embeds the JavaScript template interpolation of a loop counter
(the suffix in the collision-avoiding rename loop), which prints the
number in decimal. -/

/-- Character for a single decimal digit, digit d mapsto code 48 + d. -/
def digitChar (d : Nat) : Char := Char.ofNat (48 + d)

/-- Little-endian base-10 digit list of n, with explicit fuel
(the fuel n+1 always suffices, see natDecimal lemmas). -/
def digitsRevFuel : Nat → Nat → List Nat
  | 0, _ => []
  | fuel + 1, n => if n < 10 then [n] else n % 10 :: digitsRevFuel fuel (n / 10)

/-- Decimal string of a natural number, as JavaScript prints it. -/
def natDecimal (n : Nat) : String :=
  String.mk (((digitsRevFuel (n + 1) n).map digitChar).reverse)

/-- Value of a little-endian digit list. -/
def valRev : List Nat → Nat
  | [] => 0
  | d :: rest => d + 10 * valRev rest

theorem valRev_digitsRevFuel : ∀ fuel n, n < fuel → valRev (digitsRevFuel fuel n) = n := by
  intro fuel
  induction fuel with
  | zero => intro n h; omega
  | succ fuel ih =>
    intro n h
    by_cases h10 : n < 10
    · simp [digitsRevFuel, h10, valRev]
    · have hdiv : n / 10 < n := Nat.div_lt_self (by omega) (by omega)
      have : n / 10 < fuel := by omega
      simp only [digitsRevFuel, h10, if_false, valRev, ih (n / 10) this]
      omega

theorem digitsRevFuel_lt_ten : ∀ fuel n, ∀ d ∈ digitsRevFuel fuel n, d < 10 := by
  intro fuel
  induction fuel with
  | zero => intro n d hd; simp [digitsRevFuel] at hd
  | succ fuel ih =>
    intro n d hd
    by_cases h10 : n < 10
    · simp [digitsRevFuel, h10] at hd; omega
    · simp only [digitsRevFuel, h10, if_false, List.mem_cons] at hd
      rcases hd with h | h
      · subst h; exact Nat.mod_lt _ (by omega)
      · exact ih _ _ h

theorem digitChar_inj {d e : Nat} (hd : d < 10) (he : e < 10)
    (h : digitChar d = digitChar e) : d = e := by
  interval_cases d <;> interval_cases e <;> simp_all [digitChar]

theorem map_digitChar_inj : ∀ l₁ l₂ : List Nat, (∀ d ∈ l₁, d < 10) → (∀ d ∈ l₂, d < 10) →
    l₁.map digitChar = l₂.map digitChar → l₁ = l₂ := by
  intro l₁
  induction l₁ with
  | nil => intro l₂ _ _ h; cases l₂ <;> simp_all
  | cons d rest ih =>
    intro l₂ h₁ h₂ h
    cases l₂ with
    | nil => simp at h
    | cons e rest₂ =>
      simp only [List.map_cons, List.cons.injEq] at h
      have hde : d = e := digitChar_inj (h₁ d (by simp)) (h₂ e (by simp)) h.1
      have : rest = rest₂ :=
        ih rest₂ (fun x hx => h₁ x (by simp [hx])) (fun x hx => h₂ x (by simp [hx])) h.2
      simp [hde, this]

theorem natDecimal_inj : Function.Injective natDecimal := by
  intro m n h
  have hdata : ((digitsRevFuel (m + 1) m).map digitChar).reverse =
      ((digitsRevFuel (n + 1) n).map digitChar).reverse := congrArg String.data h
  have h' := List.reverse_injective hdata
  have hm := map_digitChar_inj _ _ (fun d hd => digitsRevFuel_lt_ten _ _ d hd)
    (fun d hd => digitsRevFuel_lt_ten _ _ d hd) h'
  have v₁ := valRev_digitsRevFuel (m + 1) m (by omega)
  have v₂ := valRev_digitsRevFuel (n + 1) n (by omega)
  rw [← v₁, ← v₂, hm]

theorem append_natDecimal_inj (base : String) : Function.Injective fun i => base ++ natDecimal i := by
  intro i j h
  simp only at h
  have : (base ++ natDecimal i).data = (base ++ natDecimal j).data := by rw [h]
  rw [String.data_append, String.data_append] at this
  have hcancel := List.append_cancel_left this
  exact natDecimal_inj (String.ext hcancel)

/-! ## The unbounded rename loop

The source loops `for (let i = 0; ; i++)` trying `importName + i` until a
name not in the module scope is found.  The loop is genuinely unbounded;
its termination rests on the module scope being finite. -/

theorem freeIndexExistsFrom (base : String) (defined : List String) (i : Nat) :
    ∃ j, i ≤ j ∧ base ++ natDecimal j ∉ defined := by
  by_contra hcon
  push_neg at hcon
  set L := defined.length with hL
  set l : List String := (List.range (L + 1)).map fun k => base ++ natDecimal (i + k) with hl
  have hnodup : l.Nodup := by
    refine List.Nodup.map ?_ (List.nodup_range _)
    intro a b hab
    have := append_natDecimal_inj base hab
    omega
  have hsub : l ⊆ defined := by
    intro s hs
    simp only [hl, List.mem_map, List.mem_range] at hs
    obtain ⟨k, _, rfl⟩ := hs
    exact hcon (i + k) (by omega)
  have hlen : l.length ≤ defined.length := (hnodup.subperm hsub).length_le
  simp [hl] at hlen

/-- Rename loop of getOrInsertImport (source lines 247-251): starting at
index i, return the first string of the form base + decimal index that is
not among the already-declared names. -/
def findFree (base : String) (defined : List String) (i : Nat) : String :=
  if base ++ natDecimal i ∈ defined then findFree base defined (i + 1)
  else base ++ natDecimal i
termination_by Nat.find (freeIndexExistsFrom base defined i) - i
decreasing_by
  rename_i hmem
  have h₀ := Nat.find_spec (freeIndexExistsFrom base defined i)
  set F := Nat.find (freeIndexExistsFrom base defined i)
  have hne : F ≠ i := by
    intro heq
    exact h₀.2 (heq ▸ hmem)
  have hge : i + 1 ≤ F := by
    have := h₀.1
    omega
  have hle : Nat.find (freeIndexExistsFrom base defined (i + 1)) ≤ F :=
    Nat.find_min' _ ⟨hge, h₀.2⟩
  omega

/-! ## JSON string quoting

Embeds the host JSON.stringify on strings, used by the synthesizer to
quote module specifiers in newly inserted import statements. -/

/-- Hexadecimal digit character (lowercase, as JSON.stringify emits). -/
def hexDigit (n : Nat) : Char := if n < 10 then digitChar n else Char.ofNat (87 + n)

/-- Four-digit hexadecimal rendering used in \u escapes. -/
def hex4 (n : Nat) : String :=
  String.mk [hexDigit (n / 4096 % 16), hexDigit (n / 256 % 16), hexDigit (n / 16 % 16),
    hexDigit (n % 16)]

/-- Escaping of a single character per JSON.stringify. -/
def jsonEscapeChar (c : Char) : String :=
  if c = '"' then "\\\""
  else if c = '\\' then "\\\\"
  else if c = '\n' then "\\n"
  else if c = '\r' then "\\r"
  else if c = '\t' then "\\t"
  else if c.toNat = 8 then "\\b"
  else if c.toNat = 12 then "\\f"
  else if c.toNat < 32 then "\\u" ++ hex4 c.toNat
  else String.singleton c

/-- JSON.stringify on a string value. -/
def jsonStringify (s : String) : String :=
  "\"" ++ String.join (s.data.map jsonEscapeChar) ++ "\""

/-! ## Data model for import statements

Mirrors the @typescript-eslint AST shapes read by getOrInsertImport:
ImportDeclaration statements with their specifiers, the statement-level
and specifier-level import kinds, and the token stream ESLint exposes. -/

/-- Statement- or specifier-level import kind. -/
inductive ImportKind
  | value
  | type
deriving DecidableEq, Repr

/-- One import specifier, as in the ESTree ImportDeclaration node. -/
inductive Specifier
  | importDefaultSpecifier (localName : String)
  | importSpecifier (importedName localName : String) (importKind : ImportKind)
  | importNamespaceSpecifier (localName : String)
deriving DecidableEq, Repr

/-- Local binding name introduced by a specifier, spec.local.name. -/
def Specifier.localName : Specifier → String
  | .importDefaultSpecifier l => l
  | .importSpecifier _ l _ => l
  | .importNamespaceSpecifier l => l

/-- Whether the specifier is individually type-only; the source reads
(spec as any).importKind which is undefined on default and namespace
specifiers. -/
def Specifier.isTypeKind : Specifier → Bool
  | .importSpecifier _ _ ImportKind.type => true
  | _ => false

/-- Test for spec.type equal to ImportSpecifier. -/
def Specifier.isNamed : Specifier → Bool
  | .importSpecifier _ _ _ => true
  | _ => false

/-- Test for spec.type equal to ImportDefaultSpecifier. -/
def Specifier.isDefault : Specifier → Bool
  | .importDefaultSpecifier _ => true
  | _ => false

/-- Test for spec.type equal to ImportNamespaceSpecifier. -/
def Specifier.isNamespace : Specifier → Bool
  | .importNamespaceSpecifier _ => true
  | _ => false

/-- One ImportDeclaration statement.  emptyBraces records whether the
statement's concrete syntax carries an empty named-import block (it is
only meaningful when no named specifier is present, which forces a
block anyway); startColumn is loc.start.column. -/
structure ImportDecl where
  source : String
  importKind : ImportKind
  specifiers : List Specifier
  emptyBraces : Bool
  startColumn : Nat
deriving DecidableEq, Repr

/-- Top-level statement of the program body. -/
inductive Stmt
  | importStmt (d : ImportDecl)
  | otherStmt
deriving DecidableEq, Repr

/-- The program together with the scope-manager facts the synthesizer
reads: module-scope variable names and the program node's start column. -/
structure Program where
  body : List Stmt
  startColumn : Nat
  scopeVariables : List String
deriving DecidableEq, Repr

/-! ## Token stream of an import statement

Models the ESLint SourceCode token queries (getTokensAfter and
getTokenBefore) on import declarations; the tokenizer types keywords,
identifiers, punctuators and string literals as espree does (the
keyword that opens the statement is a Keyword token, the contextual
keyword from an Identifier token). -/

/-- Token type tags as the parser reports them. -/
inductive TokenType
  | keyword
  | ident
  | punct
  | strlit
deriving DecidableEq, Repr

/-- One source token: its type tag and source text. -/
structure Token where
  ttype : TokenType
  value : String
deriving DecidableEq, Repr

/-- Tokens of one specifier as they appear in the source. -/
def Specifier.tokens : Specifier → List Token
  | .importDefaultSpecifier l => [⟨.ident, l⟩]
  | .importNamespaceSpecifier l => [⟨.punct, "*"⟩, ⟨.ident, "as"⟩, ⟨.ident, l⟩]
  | .importSpecifier imp lcl k =>
    (if k = ImportKind.type then [⟨.ident, "type"⟩] else []) ++
      (if imp = lcl then [⟨.ident, imp⟩] else [⟨.ident, imp⟩, ⟨.ident, "as"⟩, ⟨.ident, lcl⟩])

/-- Comma-separated concatenation of token groups. -/
def sepByComma (groups : List (List Token)) : List Token :=
  List.intercalate [⟨.punct, ","⟩] groups

/-- Full token list of one import statement. -/
def ImportDecl.tokens (d : ImportDecl) : List Token :=
  let head : List Token :=
    ⟨.keyword, "import"⟩ ::
      (if d.importKind = ImportKind.type then [⟨.ident, "type"⟩] else [])
  let named := d.specifiers.filter Specifier.isNamed
  let namedBlock : List (List Token) :=
    if named.isEmpty && !d.emptyBraces then []
    else [[⟨.punct, "\x7b"⟩] ++ sepByComma (named.map Specifier.tokens) ++ [⟨.punct, "\x7d"⟩]]
  let groups : List (List Token) :=
    (d.specifiers.filter Specifier.isDefault).map Specifier.tokens ++
      (d.specifiers.filter Specifier.isNamespace).map Specifier.tokens ++ namedBlock
  let src : Token := ⟨.strlit, "\"" ++ d.source ++ "\""⟩
  if groups.isEmpty then head ++ [src, ⟨.punct, ";"⟩]
  else head ++ sepByComma groups ++ [⟨.ident, "from"⟩, src, ⟨.punct, ";"⟩]

/-- Local name of the first default specifier, if any. -/
def ImportDecl.defaultLocal (d : ImportDecl) : Option String :=
  d.specifiers.findSome? fun s =>
    match s with
    | .importDefaultSpecifier l => some l
    | _ => none

/-- Models sourceCode.getTokensAfter(defaultSpec, count): the count
tokens following the default specifier's local-name token. -/
def getTokensAfterDefault (d : ImportDecl) (count : Nat) : List Token :=
  match d.defaultLocal with
  | none => []
  | some l =>
    ((d.tokens.dropWhile fun t => !(t.ttype == TokenType.ident && t.value == l)).drop 1).take count

/-- Tokens preceding the module string literal. -/
def tokensBeforeSource (d : ImportDecl) : List Token :=
  d.tokens.takeWhile fun t => !(t.ttype == TokenType.strlit)

/-- Models sourceCode.getTokenBefore(node.source). -/
def getTokenBeforeSource (d : ImportDecl) : Option Token :=
  (tokensBeforeSource d).getLast?

/-- Models sourceCode.getTokenBefore(node.source, skip) : the token
skip places further back. -/
def getTokenBeforeSourceSkip (d : ImportDecl) (skip : Nat) : Option Token :=
  (tokensBeforeSource d).reverse.get? skip

/-! ## The synthesizer getOrInsertImport

Source lines 202-344.  The statement scan, the rename step and every
edit-emitting branch are translated one for one; a RuleFix names the
anchor object the TypeScript code hands to the fixer. -/

/-- Inner specifier loop of the statement scan (source lines 222-235):
first specifier of the statement that already binds the requested
export, skipping type-only specifiers; yields its local name. -/
def findBoundLocal (importName : String) : List Specifier → Option String
  | [] => none
  | s :: rest =>
    if s.isTypeKind then findBoundLocal importName rest
    else
      match s with
      | .importDefaultSpecifier lcl =>
        if importName = "default" then some lcl else findBoundLocal importName rest
      | .importSpecifier imported lcl _ =>
        if imported = importName then some lcl else findBoundLocal importName rest
      | .importNamespaceSpecifier _ => findBoundLocal importName rest

/-- The eligibleForNamedImport flag of the scan: false exactly when a
(non type-only) namespace specifier occurs. -/
def eligibleForNamedImport (specs : List Specifier) : Bool :=
  !(specs.any fun s => !s.isTypeKind && s.isNamespace)

/-- Result of the statement scan: either an early return with a
reusable local name, or the three accumulators of the loop. -/
inductive ScanOut
  | reuse (localName : String)
  | state (positionHintNode importNode lastImport : Option (Nat × ImportDecl))
deriving DecidableEq, Repr

/-- Statement loop of getOrInsertImport (source lines 216-243), with the
three accumulators positionHintNode, importNode and lastImport threaded
explicitly; the numeric component records the statement's position in
the program body. -/
def scanLoop (source importName : String) (positionHintSources : List String) :
    List Stmt → Nat → Option (Nat × ImportDecl) → Option (Nat × ImportDecl) →
      Option (Nat × ImportDecl) → ScanOut
  | [], _, ph, im, li => .state ph im li
  | .otherStmt :: rest, i, ph, im, li =>
    scanLoop source importName positionHintSources rest (i + 1) ph im li
  | .importStmt d :: rest, i, ph, im, _li =>
    let li' := some (i, d)
    if d.source = source then
      if d.importKind = ImportKind.type then
        scanLoop source importName positionHintSources rest (i + 1) ph im li'
      else
        match findBoundLocal importName d.specifiers with
        | some lcl => .reuse lcl
        | none =>
          let im' := if im = none ∧ eligibleForNamedImport d.specifiers then some (i, d) else im
          scanLoop source importName positionHintSources rest (i + 1) ph im' li'
    else
      let ph' := if ph = none ∧ d.source ∈ positionHintSources then some (i, d) else ph
      scanLoop source importName positionHintSources rest (i + 1) ph' im li'

/-- Text edit, named by the anchor node or token the fixer receives. -/
inductive RuleFix
  | insertAfterSpecifier (stmtIdx specIdx : Nat) (text : String)
  | insertAfterToken (stmtIdx : Nat) (tok : Token) (text : String)
  | insertAfterStmt (stmtIdx : Nat) (text : String)
  | insertBeforeStmt (stmtIdx : Nat) (text : String)
  | insertBeforeProgram (text : String)
deriving DecidableEq, Repr

/-- Indentation string of n spaces. -/
def spaces (n : Nat) : String := String.mk (List.replicate n ' ')

/-- Rename step of getOrInsertImport (source lines 244-251). -/
def pickNewName (importName : String) (vars : List String) : String :=
  if vars.any fun v => v == importName then findFree importName vars 0
  else importName

/-- Specifier text (source lines 252-253): plain name, or an as-alias
when the rename loop changed it. -/
def specTextFor (importName newName : String) : String :=
  if newName = importName then importName else importName ++ " as " ++ newName

/-- Append branch of getOrInsertImport (source lines 254-319): the edit
that inserts the new specifier into the eligible existing statement
(the scan's importNode), or none when no token pattern matches (the
code then falls through to inserting a whole new statement). -/
def appendToImport (i : Nat) (d : ImportDecl) (specText newName : String) :
    Option (List RuleFix × String) :=
  if d.specifiers.any Specifier.isNamed then
    some ([RuleFix.insertAfterSpecifier i (d.specifiers.length - 1) (", " ++ specText)],
      newName)
  else if d.specifiers.any Specifier.isDefault then
    match getTokensAfterDefault d 2 with
    | [t0, t1] =>
      if t0.ttype = TokenType.punct ∧ t0.value = "," ∧
          t1.ttype = TokenType.punct ∧ t1.value = "\x7b" then
        some ([RuleFix.insertAfterToken i t1 (" " ++ specText ++ " ")], newName)
      else if t0.ttype = TokenType.ident ∧ t0.value = "from" then
        some ([RuleFix.insertAfterToken i t0 (", \x7b " ++ specText ++ " \x7d")], newName)
      else none
    | [t0] =>
      if t0.ttype = TokenType.ident ∧ t0.value = "from" then
        some ([RuleFix.insertAfterToken i t0 (", \x7b " ++ specText ++ " \x7d")], newName)
      else none
    | _ => none
  else
    match getTokenBeforeSource d with
    | some t =>
      if t.ttype = TokenType.ident ∧ t.value = "import" then
        some ([RuleFix.insertAfterToken i t (" \x7b " ++ specText ++ " \x7d from")], newName)
      else if t.ttype = TokenType.ident ∧ t.value = "from" then
        match getTokenBeforeSourceSkip d 2 with
        | some ob =>
          if ob.ttype = TokenType.punct ∧ ob.value = "\x7b" then
            some ([RuleFix.insertAfterToken i ob (" " ++ specText ++ " ")], newName)
          else none
        | none => none
      else none
    | none => none

/-- New-statement branch of getOrInsertImport (source lines 321-344):
after the last import when requested, else before the position hint,
else before the program. -/
def insertNewStmt (prog : Program) (source specText newName : String)
    (positionHintNode lastImport : Option (Nat × ImportDecl)) (doInsertAfter : Bool) :
    List RuleFix × String :=
  match doInsertAfter, lastImport with
  | true, some (j, dj) =>
    ([RuleFix.insertAfterStmt j
        ("\n" ++ spaces dj.startColumn ++ "import \x7b " ++ specText ++ " \x7d from " ++
          jsonStringify source ++ ";")],
      newName)
  | _, _ =>
    match positionHintNode with
    | some (k, dk) =>
      ([RuleFix.insertBeforeStmt k
          ("import \x7b " ++ specText ++ " \x7d from " ++ jsonStringify source ++ ";\n" ++
            spaces dk.startColumn)],
        newName)
    | none =>
      ([RuleFix.insertBeforeProgram
          ("import \x7b " ++ specText ++ " \x7d from " ++ jsonStringify source ++ ";\n" ++
            spaces prog.startColumn)],
        newName)

/-- The import-edit synthesizer (source lines 202-344). -/
def getOrInsertImport (prog : Program) (source importName : String)
    (positionHintSources : List String) (doInsertAfter : Bool) : List RuleFix × String :=
  match scanLoop source importName positionHintSources prog.body 0 none none none with
  | .reuse lcl => ([], lcl)
  | .state positionHintNode importNode lastImport =>
    let newName := pickNewName importName prog.scopeVariables
    let specText := specTextFor importName newName
    let appended : Option (List RuleFix × String) :=
      match importNode with
      | none => none
      | some (i, d) => appendToImport i d specText newName
    match appended with
    | some r => r
    | none => insertNewStmt prog source specText newName positionHintNode lastImport doInsertAfter

/-! ## Characterization of the statement scan

The loop with threaded accumulators is related to four direct recursive
searches over the body, which the claim statements use. -/

/-- First-some choice on options. -/
def orO {α : Type} (a b : Option α) : Option α :=
  match a with
  | some x => some x
  | none => b

/-- Local name that an existing import of the requested export already
binds: scans statements in order, skipping non-imports, other modules
and type-only statements, and inside each statement picks the first
matching specifier. -/
def findReuse (source importName : String) : List Stmt → Option String
  | [] => none
  | .importStmt d :: rest =>
    if d.source = source ∧ d.importKind ≠ ImportKind.type then
      match findBoundLocal importName d.specifiers with
      | some l => some l
      | none => findReuse source importName rest
    else findReuse source importName rest
  | .otherStmt :: rest => findReuse source importName rest

/-- First import statement from the module that a named specifier could
be appended to, with its body position. -/
def firstEligibleFrom (source : String) : Nat → List Stmt → Option (Nat × ImportDecl)
  | _, [] => none
  | i, .importStmt d :: rest =>
    if d.source = source ∧ d.importKind ≠ ImportKind.type ∧
        eligibleForNamedImport d.specifiers then some (i, d)
    else firstEligibleFrom source (i + 1) rest
  | i, .otherStmt :: rest => firstEligibleFrom source (i + 1) rest

/-- First import statement (from another module) whose specifier is in
the position-hint list. -/
def firstHintFrom (source : String) (hints : List String) : Nat → List Stmt →
    Option (Nat × ImportDecl)
  | _, [] => none
  | i, .importStmt d :: rest =>
    if ¬d.source = source ∧ d.source ∈ hints then some (i, d)
    else firstHintFrom source hints (i + 1) rest
  | i, .otherStmt :: rest => firstHintFrom source hints (i + 1) rest

/-- Last import statement of the body, with its position. -/
def lastImportFrom : Nat → List Stmt → Option (Nat × ImportDecl)
  | _, [] => none
  | i, .importStmt d :: rest => orO (lastImportFrom (i + 1) rest) (some (i, d))
  | i, .otherStmt :: rest => lastImportFrom (i + 1) rest

/-! ## Extraction lemmas for reuse results -/

/-- All specifiers of all import statements of a body, in order. -/
def allImportSpecifiers : List Stmt → List Specifier
  | [] => []
  | .importStmt d :: rest => d.specifiers ++ allImportSpecifiers rest
  | .otherStmt :: rest => allImportSpecifiers rest

/-! ## Data model for the translationJSX listener

The listener (source lines 67-194) inspects the capture map produced by
the tracker.  A captured node is modelled by the shape distinctions the
listener actually makes; source texts obtained through
context.getSourceCode().getText are carried on the nodes. -/

/-- Name of a JSX attribute: a plain JSXIdentifier or another shape
(such as a JSXNamespacedName). -/
inductive AttrName
  | jsxIdent (name : String)
  | otherName
deriving DecidableEq, Repr

/-- One entry of openingElement.attributes. -/
inductive JSXAttrEntry
  | attrEntry (name : AttrName)
  | spreadAttr
deriving DecidableEq, Repr

/-- Runtime value of a Literal node as the listener distinguishes it. -/
inductive LitVal
  | strVal (s : String)
  | nonStrVal
deriving DecidableEq, Repr

/-- Modelled from the spec: getStaticKey lives in
packages/eslint-plugin/src/util.ts which is not available; per the spec a
property key is either static (a fixed string) or not, so a Property
node carries that verdict directly as an optional static key, together
with the source text of its value. -/
inductive ObjProp
  | property (staticKey : Option String) (valueText : String)
  | nonProperty
deriving DecidableEq, Repr

/-- One element of an ArrayExpression. -/
inductive ArrElem
  | exprElem (text : String)
  | spreadElem
deriving DecidableEq, Repr

/-- Expression shape inspected by eligibleForJSXTagNameExpression. -/
inductive JSXExprData
  | identE (name : String)
  | memberE (obj : JSXExprData) (computed : Bool) (propIsIdent : Bool)
  | otherE
deriving DecidableEq, Repr

/-- A captured node, by the shape cases of the listener. -/
inductive CNode
  | propsOf (attrs : List JSXAttrEntry)
  | captureFailure
  | literal (v : LitVal)
  | jsxElement (text : String)
  | identNode (name : String) (text : String)
  | memberNode (obj : JSXExprData) (computed : Bool) (propIsIdent : Bool) (text : String)
  | objectExpr (props : List ObjProp)
  | arrayExpr (elems : List ArrElem)
  | otherNode
deriving DecidableEq, Repr

/-- The capture map delivered for the translationJSX event; the tracker
guarantees every declared capture name is present. -/
structure CapturedMap where
  props : CNode
  id : CNode
  render : CNode
  component : CNode
  values : CNode
  components : CNode
deriving DecidableEq, Repr

/-- Test for the regular expression of source line 352, anchored match
of one lowercase ASCII letter at the start. -/
def startsWithLowercase (name : String) : Bool :=
  match name.data with
  | [] => false
  | c :: _ => 'a' ≤ c && c ≤ 'z'

/-- Source lines 346-363. -/
def eligibleForJSXTagNameExpression : JSXExprData → Bool → Bool
  | .identE name, whole => if whole && startsWithLowercase name then false else true
  | .memberE obj computed propIsIdent, _ =>
    !computed && eligibleForJSXTagNameExpression obj false && propIsIdent
  | .otherE, _ => false

/-- Source lines 38-56 (the commented-out names are absent). -/
def MIGRATABLE_PROP_NAMES : List String := ["id", "values", "render", "component", "components"]

/-- One attribute passes the loop of source lines 78-88. -/
def attrOk : JSXAttrEntry → Bool
  | .spreadAttr => false
  | .attrEntry (.jsxIdent n) => MIGRATABLE_PROP_NAMES.contains n
  | .attrEntry .otherName => false

/-- Render step (source lines 96-104): some cur means continue with the
renderInElement accumulator, none means justReport. -/
def checkRenderNode : CNode → Option (Option String)
  | .jsxElement text => some (some text)
  | .captureFailure => some none
  | _ => none

/-- Component step (source lines 105-115). -/
def checkComponentNode (cur : Option String) : CNode → Option (Option String)
  | .identNode name text =>
    if eligibleForJSXTagNameExpression (.identE name) true then
      some (some ("<" ++ text ++ " />"))
    else none
  | .memberNode obj computed propIsIdent text =>
    if eligibleForJSXTagNameExpression (.memberE obj computed propIsIdent) true then
      some (some ("<" ++ text ++ " />"))
    else none
  | .captureFailure => some cur
  | _ => none

/-- Membership test of the params map. -/
def hasKey (params : List (String × String)) (k : String) : Bool :=
  params.any fun p => p.1 = k

/-- Object branch of the params loop (source lines 119-126). -/
def addObjectProps : List (String × String) → List ObjProp → Option (List (String × String))
  | params, [] => some params
  | params, .property (some key) valText :: rest =>
    if hasKey params key then none else addObjectProps (params ++ [(key, valText)]) rest
  | _, .property none _ :: _ => none
  | _, .nonProperty :: _ => none

/-- Array branch of the params loop (source lines 127-138). -/
def addArrayElems : List (String × String) → Nat → List ArrElem → Option (List (String × String))
  | params, _, [] => some params
  | params, i, .exprElem text :: rest =>
    if hasKey params (natDecimal i) then none
    else addArrayElems (params ++ [(natDecimal i, text)]) (i + 1) rest
  | _, _, .spreadElem :: _ => none

/-- One values-like captured node folded into the params map
(source lines 118-142). -/
def addValuesNode (params : List (String × String)) : CNode → Option (List (String × String))
  | .objectExpr props => addObjectProps params props
  | .arrayExpr elems => addArrayElems params 0 elems
  | .captureFailure => some params
  | _ => none

/-- What the listener does for a fired translationJSX event: report
without a fix, or report with the fix payload assembled from the
captures. -/
inductive Outcome
  | reportOnly
  | reportWithFix (id : String) (renderInElement : Option String)
      (params : List (String × String))
deriving DecidableEq, Repr

/-- The listener body (source lines 67-194), with every justReport path
collapsed to reportOnly. -/
def listenerOutcome (cap : CapturedMap) : Outcome :=
  match cap.props with
  | .propsOf attrs =>
    if attrs.all attrOk then
      match cap.id with
      | .literal (.strVal idv) =>
        match checkRenderNode cap.render with
        | none => .reportOnly
        | some r1 =>
          match checkComponentNode r1 cap.component with
          | none => .reportOnly
          | some r2 =>
            match addValuesNode [] cap.values with
            | none => .reportOnly
            | some p1 =>
              match addValuesNode p1 cap.components with
              | none => .reportOnly
              | some p2 => .reportWithFix idv r2 p2
      | _ => .reportOnly
    else .reportOnly
  | _ => .reportOnly

/-! ## The JSX attribute quoting helper (source lines 365-374) -/

/-- Character class of the regular expression on source line 367. -/
def badForDoubleQuote (c : Char) : Bool :=
  c = '\r' || c = '\n' || c.toNat = 8232 || c.toNat = 8233 || c = '"'

/-- Character class of the regular expression on source line 369. -/
def badForSingleQuote (c : Char) : Bool :=
  c = '\r' || c = '\n' || c.toNat = 8232 || c.toNat = 8233 || c.toNat = 39

/-- Source lines 365-374. -/
def jsxAttributeString (text : String) : String :=
  if !(text.data.any badForDoubleQuote) then "\"" ++ text ++ "\""
  else if !(text.data.any badForSingleQuote) then "\x27" ++ text ++ "\x27"
  else "\x7b" ++ jsonStringify text ++ "\x7d"

/-! ## Keys accumulated by the params loop -/

/-- Static keys of the properties of an ObjectExpression. -/
def objKeys (props : List ObjProp) : List String :=
  props.filterMap fun p =>
    match p with
    | .property k _ => k
    | .nonProperty => none

/-- Keys a values-like captured node contributes to the params map. -/
def keysOfNode : CNode → List String
  | .objectExpr props => objKeys props
  | .arrayExpr elems => (List.range elems.length).map natDecimal
  | _ => []

/-! ## Claim-side auxiliary definitions -/

/-- Least i with base plus the decimal of i free of the declared names;
the value the renaming loop is claimed to reach. -/
def leastFreeIndex (base : String) (defined : List String) : Nat :=
  Nat.find (freeIndexExistsFrom base defined 0)

/-- Spec-side condition of the first branch of jsxAttributeString: the
text contains a carriage return, line feed, U+2028, U+2029 or double
quote. -/
def hasJsxLineTermOrDouble (s : String) : Prop :=
  ∃ c ∈ s.data, c = '\r' ∨ c = '\n' ∨ c.toNat = 8232 ∨ c.toNat = 8233 ∨ c = '"'

/-- Spec-side condition of the second branch of jsxAttributeString: the
text contains a carriage return, line feed, U+2028, U+2029 or single
quote. -/
def hasJsxLineTermOrSingle (s : String) : Prop :=
  ∃ c ∈ s.data, c = '\r' ∨ c = '\n' ∨ c.toNat = 8232 ∨ c.toNat = 8233 ∨ c.toNat = 39

instance (s : String) : Decidable (hasJsxLineTermOrDouble s) :=
  inferInstanceAs (Decidable (∃ c ∈ s.data,
    c = '\r' ∨ c = '\n' ∨ c.toNat = 8232 ∨ c.toNat = 8233 ∨ c = '"'))

instance (s : String) : Decidable (hasJsxLineTermOrSingle s) :=
  inferInstanceAs (Decidable (∃ c ∈ s.data,
    c = '\r' ∨ c = '\n' ∨ c.toNat = 8232 ∨ c.toNat = 8233 ∨ c.toNat = 39))

/-! ## Theorems -/

theorem findFree_char (base : String) (defined : List String) :
    ∀ i, ∃ k, findFree base defined i = base ++ natDecimal k ∧ i ≤ k ∧
      base ++ natDecimal k ∉ defined ∧ ∀ j, i ≤ j → j < k → base ++ natDecimal j ∈ defined := by
  have main : ∀ m i, Nat.find (freeIndexExistsFrom base defined i) - i = m →
      ∃ k, findFree base defined i = base ++ natDecimal k ∧ i ≤ k ∧
        base ++ natDecimal k ∉ defined ∧ ∀ j, i ≤ j → j < k → base ++ natDecimal j ∈ defined := by
    intro m
    induction m using Nat.strong_induction_on with
    | _ m ih =>
      intro i hm
      rw [findFree]
      by_cases hmem : base ++ natDecimal i ∈ defined
      · have h₀ := Nat.find_spec (freeIndexExistsFrom base defined i)
        set F := Nat.find (freeIndexExistsFrom base defined i) with hF
        have hne : F ≠ i := fun heq => h₀.2 (heq ▸ hmem)
        have hge : i + 1 ≤ F := by have := h₀.1; omega
        have hle : Nat.find (freeIndexExistsFrom base defined (i + 1)) ≤ F :=
          Nat.find_min' _ ⟨hge, h₀.2⟩
        have hge' : i + 1 ≤ Nat.find (freeIndexExistsFrom base defined (i + 1)) :=
          (Nat.find_spec (freeIndexExistsFrom base defined (i + 1))).1
        have hdec : Nat.find (freeIndexExistsFrom base defined (i + 1)) - (i + 1) < m := by omega
        obtain ⟨k, hk₁, hk₂, hk₃, hk₄⟩ := ih _ hdec (i + 1) rfl
        refine ⟨k, by simp [hmem, hk₁], by omega, hk₃, ?_⟩
        intro j hij hjk
        rcases Nat.eq_or_lt_of_le hij with h | h
        · exact h ▸ hmem
        · exact hk₄ j (by omega) hjk
      · exact ⟨i, by simp [hmem], le_refl i, hmem, fun j h₁ h₂ => absurd h₁ (by omega)⟩
  intro i
  exact main _ i rfl

theorem orO_none {α : Type} (b : Option α) : orO none b = b := rfl

theorem orO_some {α : Type} (x : α) (b : Option α) : orO (some x) b = some x := rfl

theorem orO_none_right {α : Type} (a : Option α) : orO a none = a := by
  cases a <;> rfl

theorem orO_assoc {α : Type} (a b c : Option α) : orO (orO a b) c = orO a (orO b c) := by
  cases a <;> rfl

theorem scanLoop_eq (source importName : String) (hints : List String) :
    ∀ (body : List Stmt) (i : Nat) (ph im li : Option (Nat × ImportDecl)),
      scanLoop source importName hints body i ph im li =
        match findReuse source importName body with
        | some l => ScanOut.reuse l
        | none =>
          ScanOut.state (orO ph (firstHintFrom source hints i body))
            (orO im (firstEligibleFrom source i body)) (orO (lastImportFrom i body) li) := by
  intro body
  induction body with
  | nil =>
    intro i ph im li
    simp [scanLoop, findReuse, firstHintFrom, firstEligibleFrom, lastImportFrom, orO_none,
      orO_none_right]
  | cons s rest ih =>
    intro i ph im li
    cases s with
    | otherStmt =>
      simp only [scanLoop, findReuse, firstHintFrom, firstEligibleFrom, lastImportFrom]
      exact ih (i + 1) ph im li
    | importStmt d =>
      by_cases hsrc : d.source = source
      · by_cases htyp : d.importKind = ImportKind.type
        · have hcond : ¬(d.source = source ∧ d.importKind ≠ ImportKind.type) := by
            simp [hsrc, htyp]
          simp only [scanLoop, hsrc, if_true, htyp, findReuse, hcond, if_false,
            firstHintFrom, firstEligibleFrom, lastImportFrom]
          rw [ih (i + 1) ph im (some (i, d))]
          have helig : ¬(d.source = source ∧ d.importKind ≠ ImportKind.type ∧
              eligibleForNamedImport d.specifiers = true) := by simp [htyp]
          have hhint : ¬(¬d.source = source ∧ d.source ∈ hints) := by simp [hsrc]
          cases hfr : findReuse source importName rest <;>
            simp [helig, hhint, orO_assoc, orO_some, orO_none_right]
        · have hcond : d.source = source ∧ d.importKind ≠ ImportKind.type := ⟨hsrc, htyp⟩
          simp only [scanLoop, hsrc, if_true, htyp, if_false, findReuse, hcond,
            firstHintFrom, firstEligibleFrom, lastImportFrom]
          cases hfb : findBoundLocal importName d.specifiers with
          | some l => simp [htyp]
          | none =>
            simp only []
            have hhint : ¬(¬d.source = source ∧ d.source ∈ hints) := by simp [hsrc]
            by_cases heli : eligibleForNamedImport d.specifiers = true
            · cases im with
              | none =>
                have him : ((none : Option (Nat × ImportDecl)) = none ∧
                    eligibleForNamedImport d.specifiers = true) := ⟨rfl, heli⟩
                rw [if_pos him, ih (i + 1) ph (some (i, d)) (some (i, d))]
                have helig2 : d.source = source ∧ d.importKind ≠ ImportKind.type ∧
                    eligibleForNamedImport d.specifiers = true := ⟨hsrc, htyp, heli⟩
                cases hfr : findReuse source importName rest <;>
                  simp [helig2, hhint, orO_assoc, orO_some, orO_none, orO_none_right]
              | some x =>
                have him : ¬((some x : Option (Nat × ImportDecl)) = none ∧
                    eligibleForNamedImport d.specifiers = true) := by simp
                rw [if_neg him, ih (i + 1) ph (some x) (some (i, d))]
                cases hfr : findReuse source importName rest <;>
                  simp [hhint, orO_assoc, orO_some, orO_none, orO_none_right]
            · have him : ¬(im = none ∧ eligibleForNamedImport d.specifiers = true) := by
                simp [heli]
              rw [if_neg him, ih (i + 1) ph im (some (i, d))]
              cases hfr : findReuse source importName rest <;>
                simp [heli, hhint, orO_assoc, orO_some, orO_none, orO_none_right]
      · have hcond : ¬(d.source = source ∧ d.importKind ≠ ImportKind.type) := by simp [hsrc]
        have helig : ¬(d.source = source ∧ d.importKind ≠ ImportKind.type ∧
            eligibleForNamedImport d.specifiers = true) := by simp [hsrc]
        simp only [scanLoop, hsrc, if_false, findReuse, hcond, firstHintFrom,
          firstEligibleFrom, lastImportFrom, helig]
        by_cases hhint : d.source ∈ hints
        · cases ph with
          | none =>
            have hph : ((none : Option (Nat × ImportDecl)) = none ∧ d.source ∈ hints) :=
              ⟨rfl, hhint⟩
            rw [if_pos hph, ih (i + 1) (some (i, d)) im (some (i, d))]
            cases hfr : findReuse source importName rest <;>
              simp [hhint, orO_assoc, orO_some, orO_none, orO_none_right]
          | some x =>
            have hph : ¬((some x : Option (Nat × ImportDecl)) = none ∧ d.source ∈ hints) := by
              simp
            rw [if_neg hph, ih (i + 1) (some x) im (some (i, d))]
            cases hfr : findReuse source importName rest <;>
              simp [hhint, orO_assoc, orO_some, orO_none, orO_none_right]
        · have hph : ¬(ph = none ∧ d.source ∈ hints) := by simp [hhint]
          rw [if_neg hph, ih (i + 1) ph im (some (i, d))]
          cases hfr : findReuse source importName rest <;>
            simp [hhint, orO_assoc, orO_some, orO_none, orO_none_right]

/-! ## Shape lemmas for the synthesizer result -/

theorem appendToImport_shape (i : Nat) (d : ImportDecl) (s n : String) :
    appendToImport i d s n = none ∨ ∃ f, appendToImport i d s n = some ([f], n) := by
  unfold appendToImport
  repeat' split
  all_goals simp

theorem insertNewStmt_shape (prog : Program) (source specText newName : String)
    (ph li : Option (Nat × ImportDecl)) (dia : Bool) :
    ∃ f, insertNewStmt prog source specText newName ph li dia = ([f], newName) := by
  unfold insertNewStmt
  repeat' split
  all_goals simp

theorem getOrInsertImport_cases (prog : Program) (source importName : String)
    (hints : List String) (dia : Bool) :
    (∃ l, findReuse source importName prog.body = some l ∧
        getOrInsertImport prog source importName hints dia = ([], l)) ∨
      (findReuse source importName prog.body = none ∧
        ∃ f, getOrInsertImport prog source importName hints dia =
          ([f], pickNewName importName prog.scopeVariables)) := by
  unfold getOrInsertImport
  rw [scanLoop_eq]
  cases h : findReuse source importName prog.body with
  | some l => exact Or.inl ⟨l, rfl, by simp⟩
  | none =>
    refine Or.inr ⟨rfl, ?_⟩
    simp only [orO_none]
    cases hE : firstEligibleFrom source 0 prog.body with
    | none =>
      simpa using insertNewStmt_shape prog source
        (specTextFor importName (pickNewName importName prog.scopeVariables))
        (pickNewName importName prog.scopeVariables)
        (firstHintFrom source hints 0 prog.body) (orO (lastImportFrom 0 prog.body) none) dia
    | some p =>
      obtain ⟨i, d⟩ := p
      rcases appendToImport_shape i d
          (specTextFor importName (pickNewName importName prog.scopeVariables))
          (pickNewName importName prog.scopeVariables) with hA | ⟨f, hA⟩
      · simpa [hA] using insertNewStmt_shape prog source
          (specTextFor importName (pickNewName importName prog.scopeVariables))
          (pickNewName importName prog.scopeVariables)
          (firstHintFrom source hints 0 prog.body) (orO (lastImportFrom 0 prog.body) none) dia
      · exact ⟨f, by simp [hA]⟩

theorem findBoundLocal_extract (importName : String) :
    ∀ (specs : List Specifier) (l : String), findBoundLocal importName specs = some l →
      ∃ s ∈ specs, s.isTypeKind = false ∧ s.localName = l ∧
        ((s = Specifier.importDefaultSpecifier l ∧ importName = "default") ∨
          ∃ k, s = Specifier.importSpecifier importName l k) := by
  intro specs
  induction specs with
  | nil => intro l h; simp [findBoundLocal] at h
  | cons s rest ih =>
    intro l h
    cases s with
    | importDefaultSpecifier lcl =>
      simp only [findBoundLocal, Specifier.isTypeKind, Bool.false_eq_true, if_false] at h
      by_cases hd : importName = "default"
      · rw [if_pos hd] at h
        refine ⟨Specifier.importDefaultSpecifier lcl, by simp, rfl, ?_, ?_⟩
        · simpa [Specifier.localName] using Option.some.inj h
        · exact Or.inl ⟨by rw [Option.some.inj h], hd⟩
      · rw [if_neg hd] at h
        obtain ⟨s', hs', hprop⟩ := ih l h
        exact ⟨s', by simp [hs'], hprop⟩
    | importSpecifier imp lcl k =>
      cases k with
      | type =>
        simp only [findBoundLocal, Specifier.isTypeKind, if_true] at h
        obtain ⟨s', hs', hprop⟩ := ih l h
        exact ⟨s', by simp [hs'], hprop⟩
      | value =>
        simp only [findBoundLocal, Specifier.isTypeKind, Bool.false_eq_true, if_false] at h
        by_cases hi : imp = importName
        · rw [if_pos hi] at h
          have hl : lcl = l := Option.some.inj h
          refine ⟨Specifier.importSpecifier imp lcl ImportKind.value, by simp, rfl, ?_, ?_⟩
          · simp [Specifier.localName, hl]
          · exact Or.inr ⟨ImportKind.value, by rw [hi, hl]⟩
        · rw [if_neg hi] at h
          obtain ⟨s', hs', hprop⟩ := ih l h
          exact ⟨s', by simp [hs'], hprop⟩
    | importNamespaceSpecifier lcl =>
      simp only [findBoundLocal, Specifier.isTypeKind, Bool.false_eq_true, if_false] at h
      obtain ⟨s', hs', hprop⟩ := ih l h
      exact ⟨s', by simp [hs'], hprop⟩

theorem findReuse_extract (source importName : String) :
    ∀ (body : List Stmt) (l : String), findReuse source importName body = some l →
      ∃ s ∈ allImportSpecifiers body, s.isTypeKind = false ∧ s.localName = l ∧
        ((s = Specifier.importDefaultSpecifier l ∧ importName = "default") ∨
          ∃ k, s = Specifier.importSpecifier importName l k) := by
  intro body
  induction body with
  | nil => intro l h; simp [findReuse] at h
  | cons st rest ih =>
    intro l h
    cases st with
    | otherStmt =>
      rw [findReuse] at h
      obtain ⟨s', hs', hprop⟩ := ih l h
      exact ⟨s', by simpa [allImportSpecifiers] using hs', hprop⟩
    | importStmt d =>
      rw [findReuse] at h
      by_cases hc : d.source = source ∧ d.importKind ≠ ImportKind.type
      · rw [if_pos hc] at h
        cases hfb : findBoundLocal importName d.specifiers with
        | some l' =>
          rw [hfb] at h
          have : l' = l := Option.some.inj h
          obtain ⟨s', hs', hprop⟩ := findBoundLocal_extract importName d.specifiers l
            (this ▸ hfb)
          exact ⟨s', by simp [allImportSpecifiers, hs'], hprop⟩
        | none =>
          rw [hfb] at h
          obtain ⟨s', hs', hprop⟩ := ih l h
          exact ⟨s', by simp [allImportSpecifiers, hs'], hprop⟩
      · rw [if_neg hc] at h
        obtain ⟨s', hs', hprop⟩ := ih l h
        exact ⟨s', by simp [allImportSpecifiers, hs'], hprop⟩

/-! ## Facts about the rename step -/

theorem pickNewName_not_mem (importName : String) (vars : List String) :
    pickNewName importName vars ∉ vars := by
  unfold pickNewName
  by_cases h : (vars.any fun v => v == importName) = true
  · rw [if_pos h]
    obtain ⟨k, hk, _, hfree, _⟩ := findFree_char importName vars 0
    rw [hk]
    exact hfree
  · rw [if_neg h]
    intro hmem
    apply h
    simp only [List.any_eq_true, beq_iff_eq]
    exact ⟨importName, hmem, rfl⟩

theorem findReuse_none (source importName : String) :
    ∀ body : List Stmt,
      (∀ d, Stmt.importStmt d ∈ body → d.source = source →
        d.importKind = ImportKind.type ∨ findBoundLocal importName d.specifiers = none) →
      findReuse source importName body = none := by
  intro body
  induction body with
  | nil => intro _; rfl
  | cons st rest ih =>
    intro hyp
    cases st with
    | otherStmt =>
      rw [findReuse]
      exact ih fun d hd => hyp d (by simp [hd])
    | importStmt d =>
      rw [findReuse]
      by_cases hc : d.source = source ∧ d.importKind ≠ ImportKind.type
      · rw [if_pos hc]
        rcases hyp d (by simp) hc.1 with ht | hfb
        · exact absurd ht hc.2
        · rw [hfb]
          exact ih fun d' hd' => hyp d' (by simp [hd'])
      · rw [if_neg hc]
        exact ih fun d' hd' => hyp d' (by simp [hd'])

theorem firstEligibleFrom_none (source : String) :
    ∀ (body : List Stmt) (i : Nat),
      (∀ d, Stmt.importStmt d ∈ body → ¬d.source = source) →
      firstEligibleFrom source i body = none := by
  intro body
  induction body with
  | nil => intro i _; rfl
  | cons st rest ih =>
    intro i hyp
    cases st with
    | otherStmt =>
      rw [firstEligibleFrom]
      exact ih (i + 1) fun d hd => hyp d (by simp [hd])
    | importStmt d =>
      rw [firstEligibleFrom]
      have hc : ¬(d.source = source ∧ d.importKind ≠ ImportKind.type ∧
          eligibleForNamedImport d.specifiers = true) := by
        simp [hyp d (by simp)]
      rw [if_neg hc]
      exact ih (i + 1) fun d' hd' => hyp d' (by simp [hd'])

theorem firstEligibleFrom_extract (source : String) :
    ∀ (body : List Stmt) (i k : Nat) (d : ImportDecl),
      firstEligibleFrom source i body = some (k, d) →
      Stmt.importStmt d ∈ body ∧ d.source = source ∧ d.importKind ≠ ImportKind.type ∧
        eligibleForNamedImport d.specifiers = true := by
  intro body
  induction body with
  | nil => intro i k d h; simp [firstEligibleFrom] at h
  | cons st rest ih =>
    intro i k d h
    cases st with
    | otherStmt =>
      rw [firstEligibleFrom] at h
      obtain ⟨hmem, hrest⟩ := ih (i + 1) k d h
      exact ⟨by simp [hmem], hrest⟩
    | importStmt d' =>
      rw [firstEligibleFrom] at h
      by_cases hc : d'.source = source ∧ d'.importKind ≠ ImportKind.type ∧
          eligibleForNamedImport d'.specifiers = true
      · rw [if_pos hc] at h
        have : d' = d := congrArg Prod.snd (Option.some.inj h)
        subst this
        exact ⟨by simp, hc⟩
      · rw [if_neg hc] at h
        obtain ⟨hmem, hrest⟩ := ih (i + 1) k d h
        exact ⟨by simp [hmem], hrest⟩

theorem appendToImport_bare (i : Nat) (d : ImportDecl) (s n : String)
    (h1 : d.specifiers = []) (h2 : d.emptyBraces = false)
    (h3 : d.importKind = ImportKind.value) :
    appendToImport i d s n = none := by
  rcases d with ⟨src, kind, specs, eb, col⟩
  dsimp only at h1 h2 h3
  subst h1
  subst h2
  subst h3
  simp [appendToImport, getTokenBeforeSource, tokensBeforeSource, ImportDecl.tokens, sepByComma]

theorem pickNewName_shape (importName : String) (vars : List String) :
    pickNewName importName vars = importName ∨
      ∃ i, pickNewName importName vars = importName ++ natDecimal i := by
  unfold pickNewName
  by_cases h : (vars.any fun v => v == importName) = true
  · rw [if_pos h]
    obtain ⟨k, hk, _, _, _⟩ := findFree_char importName vars 0
    exact Or.inr ⟨k, hk⟩
  · rw [if_neg h]
    exact Or.inl rfl

theorem hasKey_false_not_mem (params : List (String × String)) (k : String)
    (h : hasKey params k = false) : k ∉ params.map Prod.fst := by
  intro hmem
  rw [List.mem_map] at hmem
  obtain ⟨p, hp, hk⟩ := hmem
  have : hasKey params k = true := by
    simp only [hasKey, List.any_eq_true]
    exact ⟨p, hp, by simp [hk]⟩
  rw [h] at this
  exact Bool.false_ne_true this

theorem nodup_append_singleton {α : Type} (l : List α) (a : α) (h : l.Nodup) (ha : a ∉ l) :
    (l ++ [a]).Nodup := by
  rw [List.nodup_append]
  refine ⟨h, List.nodup_singleton a, ?_⟩
  intro x hx hxa
  simp only [List.mem_singleton] at hxa
  exact ha (hxa ▸ hx)

theorem addObjectProps_none_of_bad :
    ∀ (props : List ObjProp) (params : List (String × String)),
      (∃ p ∈ props, p = ObjProp.nonProperty ∨ ∃ t, p = ObjProp.property none t) →
      addObjectProps params props = none := by
  intro props
  induction props with
  | nil => intro params h; simp at h
  | cons p rest ih =>
    intro params h
    obtain ⟨q, hq, hbad⟩ := h
    rcases List.mem_cons.mp hq with rfl | hmem
    · rcases hbad with rfl | ⟨t, rfl⟩ <;> rfl
    · cases p with
      | nonProperty => rfl
      | property k t =>
        cases k with
        | none => rfl
        | some key =>
          rw [addObjectProps]
          by_cases hk : hasKey params key
          · rw [if_pos hk]
          · rw [if_neg hk]
            exact ih _ ⟨q, hmem, hbad⟩

theorem addArrayElems_none_of_spread :
    ∀ (elems : List ArrElem) (params : List (String × String)) (i : Nat),
      ArrElem.spreadElem ∈ elems → addArrayElems params i elems = none := by
  intro elems
  induction elems with
  | nil => intro params i h; simp at h
  | cons e rest ih =>
    intro params i h
    rcases List.mem_cons.mp h with rfl | hmem
    · rfl
    · cases e with
      | spreadElem => rfl
      | exprElem t =>
        rw [addArrayElems]
        by_cases hk : hasKey params (natDecimal i)
        · rw [if_pos hk]
        · rw [if_neg hk]
          exact ih _ _ hmem

theorem addObjectProps_keys :
    ∀ (props : List ObjProp) (params out : List (String × String)),
      addObjectProps params props = some out →
      out.map Prod.fst = params.map Prod.fst ++ objKeys props := by
  intro props
  induction props with
  | nil =>
    intro params out h
    have : params = out := Option.some.inj h
    simp [objKeys, ← this]
  | cons p rest ih =>
    intro params out h
    cases p with
    | nonProperty => exact absurd h (by simp [addObjectProps])
    | property k t =>
      cases k with
      | none => exact absurd h (by simp [addObjectProps])
      | some key =>
        rw [addObjectProps] at h
        by_cases hk : hasKey params key
        · rw [if_pos hk] at h; exact absurd h (by simp)
        · rw [if_neg hk] at h
          have := ih _ _ h
          simp only [List.map_append] at this
          simp [this, objKeys, List.filterMap_cons]

theorem addObjectProps_nodup :
    ∀ (props : List ObjProp) (params out : List (String × String)),
      addObjectProps params props = some out →
      (params.map Prod.fst).Nodup → (out.map Prod.fst).Nodup := by
  intro props
  induction props with
  | nil =>
    intro params out h hn
    have : params = out := Option.some.inj h
    exact this ▸ hn
  | cons p rest ih =>
    intro params out h hn
    cases p with
    | nonProperty => exact absurd h (by simp [addObjectProps])
    | property k t =>
      cases k with
      | none => exact absurd h (by simp [addObjectProps])
      | some key =>
        rw [addObjectProps] at h
        by_cases hk : hasKey params key
        · rw [if_pos hk] at h; exact absurd h (by simp)
        · rw [if_neg hk] at h
          refine ih _ _ h ?_
          have hnm := hasKey_false_not_mem params key (by simpa using hk)
          simpa using nodup_append_singleton _ key hn hnm

theorem addArrayElems_keys :
    ∀ (elems : List ArrElem) (params out : List (String × String)) (i : Nat),
      addArrayElems params i elems = some out →
      out.map Prod.fst =
        params.map Prod.fst ++ (List.range elems.length).map fun k => natDecimal (i + k) := by
  intro elems
  induction elems with
  | nil =>
    intro params out i h
    have : params = out := Option.some.inj h
    simp [← this]
  | cons e rest ih =>
    intro params out i h
    cases e with
    | spreadElem => exact absurd h (by simp [addArrayElems])
    | exprElem t =>
      rw [addArrayElems] at h
      by_cases hk : hasKey params (natDecimal i)
      · rw [if_pos hk] at h; exact absurd h (by simp)
      · rw [if_neg hk] at h
        have := ih _ _ (i + 1) h
        simp only [List.map_append] at this
        rw [this]
        have hr : (List.range (rest.length + 1)).map (fun k => natDecimal (i + k)) =
            natDecimal i :: (List.range rest.length).map fun k => natDecimal (i + 1 + k) := by
          rw [List.range_succ_eq_map]
          simp only [List.map_cons, List.map_map, Nat.add_zero]
          congr 1
          apply List.map_congr_left
          intro k _
          simp only [Function.comp]
          congr 1
          omega
        simp [hr]

theorem addArrayElems_nodup :
    ∀ (elems : List ArrElem) (params out : List (String × String)) (i : Nat),
      addArrayElems params i elems = some out →
      (params.map Prod.fst).Nodup → (out.map Prod.fst).Nodup := by
  intro elems
  induction elems with
  | nil =>
    intro params out i h hn
    have : params = out := Option.some.inj h
    exact this ▸ hn
  | cons e rest ih =>
    intro params out i h hn
    cases e with
    | spreadElem => exact absurd h (by simp [addArrayElems])
    | exprElem t =>
      rw [addArrayElems] at h
      by_cases hk : hasKey params (natDecimal i)
      · rw [if_pos hk] at h; exact absurd h (by simp)
      · rw [if_neg hk] at h
        refine ih _ _ _ h ?_
        have hnm := hasKey_false_not_mem params (natDecimal i) (by simpa using hk)
        simpa using nodup_append_singleton _ (natDecimal i) hn hnm

theorem addValuesNode_keys (n : CNode) :
    ∀ (params out : List (String × String)), addValuesNode params n = some out →
      out.map Prod.fst = params.map Prod.fst ++ keysOfNode n := by
  intro params out h
  cases n with
  | objectExpr props => exact addObjectProps_keys props params out h
  | arrayExpr elems =>
    have := addArrayElems_keys elems params out 0 h
    simpa [keysOfNode] using this
  | captureFailure =>
    have : params = out := Option.some.inj h
    simp [keysOfNode, ← this]
  | propsOf a => exact absurd h (by simp [addValuesNode])
  | literal v => exact absurd h (by simp [addValuesNode])
  | jsxElement t => exact absurd h (by simp [addValuesNode])
  | identNode a b => exact absurd h (by simp [addValuesNode])
  | memberNode a b c dd => exact absurd h (by simp [addValuesNode])
  | otherNode => exact absurd h (by simp [addValuesNode])

theorem addValuesNode_nodup (n : CNode) :
    ∀ (params out : List (String × String)), addValuesNode params n = some out →
      (params.map Prod.fst).Nodup → (out.map Prod.fst).Nodup := by
  intro params out h hn
  cases n with
  | objectExpr props => exact addObjectProps_nodup props params out h hn
  | arrayExpr elems => exact addArrayElems_nodup elems params out 0 h hn
  | captureFailure =>
    have : params = out := Option.some.inj h
    exact this ▸ hn
  | propsOf a => exact absurd h (by simp [addValuesNode])
  | literal v => exact absurd h (by simp [addValuesNode])
  | jsxElement t => exact absurd h (by simp [addValuesNode])
  | identNode a b => exact absurd h (by simp [addValuesNode])
  | memberNode a b c dd => exact absurd h (by simp [addValuesNode])
  | otherNode => exact absurd h (by simp [addValuesNode])

theorem anyDouble_iff (s : String) :
    s.data.any badForDoubleQuote = true ↔ hasJsxLineTermOrDouble s := by
  simp [badForDoubleQuote, hasJsxLineTermOrDouble, List.any_eq_true, or_assoc]

theorem anySingle_iff (s : String) :
    s.data.any badForSingleQuote = true ↔ hasJsxLineTermOrSingle s := by
  simp [badForSingleQuote, hasJsxLineTermOrSingle, List.any_eq_true, or_assoc]

/-! ## Claim theorems -/

/-- C1: whenever some existing non-type import statement from the target
module carries a non-type specifier that already binds the requested
export (a default specifier for the export named default, or a named
specifier whose imported name equals the export), getOrInsertImport
returns that specifier's local name together with an empty edit list;
in particular, in the concrete two-call scenario, once the first call's
synthesized binding is part of the state, a second call for the same
module and export returns the same name with zero edits. -/
theorem C1_dedup_reuse :
    (∀ (prog : Program) (source importName : String) (hints : List String) (dia : Bool)
        (l : String), findReuse source importName prog.body = some l →
        getOrInsertImport prog source importName hints dia = ([], l)) ∧
      getOrInsertImport ⟨[Stmt.importStmt ⟨"m", ImportKind.value, [], true, 0⟩], 0, []⟩
          ("m") ("Bar") [] false =
        ([RuleFix.insertAfterToken 0 ⟨TokenType.punct, "\x7b"⟩ (" Bar ")], "Bar") ∧
      getOrInsertImport
          ⟨[Stmt.importStmt
              ⟨"m", ImportKind.value, [Specifier.importSpecifier "Bar" "Bar" ImportKind.value],
                false, 0⟩],
            0, ["Bar"]⟩
          ("m") ("Bar") [] false = ([], "Bar") := by
  refine ⟨?_, by decide, by decide⟩
  intro prog source importName hints dia l h
  rcases getOrInsertImport_cases prog source importName hints dia with ⟨l', hfr, heq⟩ |
    ⟨hfr, _⟩
  · rw [h] at hfr
    have : l = l' := Option.some.inj hfr
    subst this
    exact heq
  · rw [h] at hfr
    exact Option.noConfusion hfr

/-- Witness for C1: a state already binding the export Bar of module m
under local name baz makes the call return baz with zero edits. -/
theorem C1_dedup_reuse_witness :
    findReuse ("m") ("Bar")
        [Stmt.importStmt
          ⟨"m", ImportKind.value, [Specifier.importSpecifier "Bar" "baz" ImportKind.value],
            false, 0⟩] = some ("baz") ∧
      getOrInsertImport
          ⟨[Stmt.importStmt
              ⟨"m", ImportKind.value, [Specifier.importSpecifier "Bar" "baz" ImportKind.value],
                false, 0⟩],
            0, ["baz"]⟩
          ("m") ("Bar") [] false = ([], "baz") := by
  constructor
  · decide
  · exact C1_dedup_reuse.1 _ _ _ _ _ _ (by decide)

/-- C2 (evaluation at the failing input): for the bare-default state of
one statement importing the default of module m as foo, requesting the
export name from m yields a single edit whose anchor is the token from
(the fixer call insertTextAfter on tokens zero), not the default
specifier; the inline comment on source lines 287-288 and the spec both
require the clause to follow the default specifier instead. -/
theorem C2_bare_default_edit_after_from_token :
    getOrInsertImport
        ⟨[Stmt.importStmt
            ⟨"m", ImportKind.value, [Specifier.importDefaultSpecifier "foo"], false, 0⟩],
          0, ["foo"]⟩
        ("m") ("name") [] false =
      ([RuleFix.insertAfterToken 0 ⟨TokenType.ident, "from"⟩ (", \x7b name \x7d")], "name") := by
  decide

/-- C3: the chosen local name is the requested name when no module-scope
variable carries it; otherwise it is the requested name suffixed with
the least decimal index that is free; in all cases the chosen name
collides with no pre-existing module-scope declaration. -/
theorem C3_noncolliding_name_choice (vars : List String) (name : String) :
    (name ∉ vars → pickNewName name vars = name) ∧
      (name ∈ vars →
        pickNewName name vars = name ++ natDecimal (leastFreeIndex name vars) ∧
          name ++ natDecimal (leastFreeIndex name vars) ∉ vars ∧
          ∀ j < leastFreeIndex name vars, name ++ natDecimal j ∈ vars) ∧
      pickNewName name vars ∉ vars := by
  refine ⟨?_, ?_, pickNewName_not_mem name vars⟩
  · intro h
    unfold pickNewName
    rw [if_neg]
    simp only [List.any_eq_true, beq_iff_eq, not_exists]
    intro v hv
    exact h (hv.2 ▸ hv.1)
  · intro h
    have hany : (vars.any fun v => v == name) = true := by
      simp only [List.any_eq_true, beq_iff_eq]
      exact ⟨name, h, rfl⟩
    unfold pickNewName
    rw [if_pos hany]
    obtain ⟨k, hk1, _, hk3, hk4⟩ := findFree_char name vars 0
    have hkeq : k = leastFreeIndex name vars := by
      unfold leastFreeIndex
      refine le_antisymm ?_ (Nat.find_min' _ ⟨Nat.zero_le k, hk3⟩)
      by_contra hlt
      push_neg at hlt
      have hspec := Nat.find_spec (freeIndexExistsFrom name vars 0)
      exact hspec.2 (hk4 _ (Nat.zero_le _) hlt)
    rw [hkeq] at hk1 hk3 hk4
    exact ⟨hk1, hk3, fun j hj => hk4 j (Nat.zero_le j) hj⟩

/-- Witness for C3 with a collision: requesting book against a scope
declaring book and book0 yields the suffixed free name. -/
theorem C3_noncolliding_name_choice_witness :
    (("book" : String) ∈ (["book", "book0"] : List String)) ∧
      pickNewName ("book") ["book", "book0"] =
        "book" ++ natDecimal (leastFreeIndex ("book") ["book", "book0"]) ∧
      pickNewName ("book") ["book", "book0"] ∉ (["book", "book0"] : List String) := by
  refine ⟨by decide, ?_, ?_⟩
  · exact ((C3_noncolliding_name_choice ["book", "book0"] ("book")).2.1 (by decide)).1
  · exact (C3_noncolliding_name_choice ["book", "book0"] ("book")).2.2

/-- C8: for the state with the single statement importing the default of
m as Foo followed by an empty named block, requesting export Bar yields
a new binding named Bar (no reuse) and a single edit inserting the
padded name right after the opening brace token. -/
theorem C8_empty_braces_append :
    findReuse ("m") ("Bar")
        [Stmt.importStmt
          ⟨"m", ImportKind.value, [Specifier.importDefaultSpecifier "Foo"], true, 0⟩] =
        none ∧
      getOrInsertImport
          ⟨[Stmt.importStmt
              ⟨"m", ImportKind.value, [Specifier.importDefaultSpecifier "Foo"], true, 0⟩],
            0, ["Foo"]⟩
          ("m") ("Bar") [] false =
        ([RuleFix.insertAfterToken 0 ⟨TokenType.punct, "\x7b"⟩ (" Bar ")], "Bar") := by
  decide

/-- C9: for every finite list of declared names and every base name the
rename loop terminates on the first free suffixed name — some suffix is
always free because the suffix map is injective into the naturals — and
the result is exactly the least free index. -/
theorem C9_rename_loop_terminates (base : String) (defined : List String) :
    (∃ i, base ++ natDecimal i ∉ defined) ∧
      ∃ i, findFree base defined 0 = base ++ natDecimal i ∧
        base ++ natDecimal i ∉ defined ∧ ∀ j < i, base ++ natDecimal j ∈ defined := by
  constructor
  · obtain ⟨j, _, hj⟩ := freeIndexExistsFrom base defined 0
    exact ⟨j, hj⟩
  · obtain ⟨k, h1, _, h3, h4⟩ := findFree_char base defined 0
    exact ⟨k, h1, h3, fun j hj => h4 j (Nat.zero_le j) hj⟩

/-- C10: jsxAttributeString wraps in double quotes when no line
terminator (CR, LF, U+2028, U+2029) and no double quote occurs, else in
single quotes when no line terminator and no single quote occurs, else
in an expression container holding the JSON rendering; the chosen quote
never occurs in the quoted text. -/
theorem C10_jsx_attribute_string (s : String) :
    (¬hasJsxLineTermOrDouble s →
        jsxAttributeString s = "\"" ++ s ++ "\"" ∧ ('"' : Char) ∉ s.data) ∧
      (hasJsxLineTermOrDouble s → ¬hasJsxLineTermOrSingle s →
        jsxAttributeString s = "\x27" ++ s ++ "\x27" ∧ Char.ofNat 39 ∉ s.data) ∧
      (hasJsxLineTermOrDouble s → hasJsxLineTermOrSingle s →
        jsxAttributeString s = "\x7b" ++ jsonStringify s ++ "\x7d") := by
  refine ⟨?_, ?_, ?_⟩
  · intro h
    have hany : s.data.any badForDoubleQuote = false := by
      rw [← Bool.not_eq_true]
      rw [anyDouble_iff]
      exact h
    constructor
    · unfold jsxAttributeString
      rw [hany]
      rfl
    · intro hmem
      exact h ⟨'"', hmem, by simp⟩
  · intro h1 h2
    have hany1 : s.data.any badForDoubleQuote = true := (anyDouble_iff s).mpr h1
    have hany2 : s.data.any badForSingleQuote = false := by
      rw [← Bool.not_eq_true]
      rw [anySingle_iff]
      exact h2
    constructor
    · unfold jsxAttributeString
      rw [hany1, hany2]
      rfl
    · intro hmem
      exact h2 ⟨Char.ofNat 39, hmem, by simp [Char.ofNat]⟩
  · intro h1 h2
    have hany1 : s.data.any badForDoubleQuote = true := (anyDouble_iff s).mpr h1
    have hany2 : s.data.any badForSingleQuote = true := (anySingle_iff s).mpr h2
    unfold jsxAttributeString
    rw [hany1, hany2]
    rfl

/-- Witness for C10 on both quoting branches. -/
theorem C10_jsx_attribute_string_witness :
    (jsxAttributeString ("ab") = "\"ab\"" ∧ ('"' : Char) ∉ ("ab" : String).data) ∧
      jsxAttributeString ("a\"b") = "\x27a\"b\x27" := by
  constructor
  · exact (C10_jsx_attribute_string ("ab")).1 (by decide)
  · exact ((C10_jsx_attribute_string ("a\"b")).2.1 (by decide) (by decide)).1

theorem eligibleForNamedImport_false_of_namespace (specs : List Specifier)
    (h : specs.any Specifier.isNamespace = true) :
    eligibleForNamedImport specs = false := by
  obtain ⟨s, hs, hns⟩ := List.any_eq_true.mp h
  cases s with
  | importNamespaceSpecifier l =>
    have hany : (specs.any fun s => !s.isTypeKind && s.isNamespace) = true :=
      List.any_eq_true.mpr ⟨_, hs, by simp [Specifier.isTypeKind, Specifier.isNamespace]⟩
    simp [eligibleForNamedImport, hany]
  | importDefaultSpecifier l => simp [Specifier.isNamespace] at hns
  | importSpecifier a b c => simp [Specifier.isNamespace] at hns

/-- C6: when no import from the target module exists, insertion after
the last import is not requested and some import's module specifier is
in the position-hint list, the synthesizer emits one edit inserting the
new import statement immediately before the first such hint import,
matching its indentation. -/
theorem C6_insert_before_hint (prog : Program) (source importName : String)
    (hints : List String) (k : Nat) (dk : ImportDecl)
    (hNo : ∀ d, Stmt.importStmt d ∈ prog.body → ¬d.source = source)
    (hHint : firstHintFrom source hints 0 prog.body = some (k, dk)) :
    getOrInsertImport prog source importName hints false =
      ([RuleFix.insertBeforeStmt k
          ("import \x7b " ++
            specTextFor importName (pickNewName importName prog.scopeVariables) ++
            " \x7d from " ++ jsonStringify source ++ ";\n" ++ spaces dk.startColumn)],
        pickNewName importName prog.scopeVariables) := by
  have hfr : findReuse source importName prog.body = none :=
    findReuse_none source importName prog.body fun d hd hs => absurd hs (hNo d hd)
  have hel : firstEligibleFrom source 0 prog.body = none :=
    firstEligibleFrom_none source prog.body 0 hNo
  unfold getOrInsertImport
  rw [scanLoop_eq, hfr]
  simp [orO_none, hel, hHint, insertNewStmt]

/-- Witness for C6: the spec's migration scenario, one import of Trans
from the lingui react package and a request for Translate from the
hi18n react package hinted at the lingui module. -/
theorem C6_insert_before_hint_witness :
    getOrInsertImport
        ⟨[Stmt.importStmt
            ⟨"@lingui/react", ImportKind.value,
              [Specifier.importSpecifier "Trans" "Trans" ImportKind.value], false, 0⟩],
          0, ["Trans"]⟩
        ("@hi18n/react") ("Translate") ["@lingui/react"] false =
      ([RuleFix.insertBeforeStmt 0 ("import \x7b Translate \x7d from \"@hi18n/react\";\n")],
        "Translate") := by
  refine Eq.trans
    (C6_insert_before_hint
      ⟨[Stmt.importStmt
          ⟨"@lingui/react", ImportKind.value,
            [Specifier.importSpecifier "Trans" "Trans" ImportKind.value], false, 0⟩],
        0, ["Trans"]⟩
      ("@hi18n/react") ("Translate") ["@lingui/react"] 0
      ⟨"@lingui/react", ImportKind.value,
        [Specifier.importSpecifier "Trans" "Trans" ImportKind.value], false, 0⟩
      ?_ (by decide))
    (by decide)
  intro d hd
  simp only [List.mem_singleton, Stmt.importStmt.injEq] at hd
  subst hd
  decide

/-- C7: when no import statement from the target module is eligible for
receiving the new specifier (each is type-only, or binds nothing
relevant and is namespace-shaped or completely bare) and insertion
after the last import is requested while some import exists, the
synthesizer emits one edit inserting a new import statement right after
the last import, indented to that statement's start column. -/
theorem C7_insert_after_last (prog : Program) (source importName : String)
    (hints : List String) (j : Nat) (dj : ImportDecl)
    (hNoElig : ∀ d, Stmt.importStmt d ∈ prog.body → d.source = source →
      d.importKind = ImportKind.type ∨
        (findBoundLocal importName d.specifiers = none ∧
          (d.specifiers.any Specifier.isNamespace = true ∨
            (d.specifiers = [] ∧ d.emptyBraces = false))))
    (hLast : lastImportFrom 0 prog.body = some (j, dj)) :
    getOrInsertImport prog source importName hints true =
      ([RuleFix.insertAfterStmt j
          ("\n" ++ spaces dj.startColumn ++ "import \x7b " ++
            specTextFor importName (pickNewName importName prog.scopeVariables) ++
            " \x7d from " ++ jsonStringify source ++ ";")],
        pickNewName importName prog.scopeVariables) := by
  have hfr : findReuse source importName prog.body = none :=
    findReuse_none source importName prog.body fun d hd hs =>
      (hNoElig d hd hs).imp id And.left
  unfold getOrInsertImport
  rw [scanLoop_eq, hfr]
  cases hel : firstEligibleFrom source 0 prog.body with
  | none => simp [orO_none, hel, hLast, insertNewStmt, orO_some]
  | some p =>
    obtain ⟨i, d⟩ := p
    obtain ⟨hmem, hsrc, htyp, heli⟩ := firstEligibleFrom_extract source prog.body 0 i d hel
    rcases hNoElig d hmem hsrc with ht | ⟨hfb, hns | ⟨hspec, hbr⟩⟩
    · exact absurd ht htyp
    · rw [eligibleForNamedImport_false_of_namespace d.specifiers hns] at heli
      exact Bool.noConfusion heli
    · have hval : d.importKind = ImportKind.value := by
        cases hk : d.importKind with
        | value => rfl
        | type => exact absurd hk htyp
      have happ := appendToImport_bare i d
        (specTextFor importName (pickNewName importName prog.scopeVariables))
        (pickNewName importName prog.scopeVariables) hspec hbr hval
      simp [orO_none, hel, happ, hLast, insertNewStmt, orO_some]

/-- Witness for C7: one existing import (of x from module a, indented
two columns), request for Y from module b with insertion after the
last import. -/
theorem C7_insert_after_last_witness :
    getOrInsertImport
        ⟨[Stmt.importStmt
            ⟨"a", ImportKind.value, [Specifier.importSpecifier "x" "x" ImportKind.value],
              false, 2⟩],
          0, ["x"]⟩
        ("b") ("Y") [] true =
      ([RuleFix.insertAfterStmt 0 ("\n  import \x7b Y \x7d from \"b\";")], "Y") := by
  refine Eq.trans
    (C7_insert_after_last
      ⟨[Stmt.importStmt
          ⟨"a", ImportKind.value, [Specifier.importSpecifier "x" "x" ImportKind.value],
            false, 2⟩],
        0, ["x"]⟩
      ("b") ("Y") [] 0
      ⟨"a", ImportKind.value, [Specifier.importSpecifier "x" "x" ImportKind.value], false, 2⟩
      ?_ (by decide))
    (by decide)
  intro d hd
  simp only [List.mem_singleton, Stmt.importStmt.injEq] at hd
  subst hd
  decide

theorem translate_append_ne_book_append (s t : String) :
    ("Translate" : String) ++ s ≠ ("book" : String) ++ t := by
  intro h
  have hd := congrArg String.data h
  rw [String.data_append, String.data_append] at hd
  have e₁ : ("Translate" : String).data = ['T', 'r', 'a', 'n', 's', 'l', 'a', 't', 'e'] := rfl
  have e₂ : ("book" : String).data = ['b', 'o', 'o', 'k'] := rfl
  rw [e₁, e₂] at hd
  simp only [List.cons_append, List.cons.injEq] at hd
  exact absurd hd.1 (by decide)

theorem pickNewName_append (base : String) (vars : List String) :
    ∃ suf, pickNewName base vars = base ++ suf := by
  rcases pickNewName_shape base vars with h | ⟨i, h⟩
  · refine ⟨"", ?_⟩
    rw [h, String.append_empty]
  · exact ⟨natDecimal i, h⟩

/-- C4: for the two synthesizer calls the fix generator makes against
the same pre-state — Translate from the hi18n react package, then book
from the book path — the returned names are distinct, and a returned
name that came with edits (a fresh binding rather than a reuse) never
equals a pre-existing module-scope declaration.  The hypotheses record
scope-manager well-formedness: import locals are pairwise distinct and
are module-scope variables. -/
theorem C4_no_collision_invariant (prog : Program) (bookSource : String)
    (h1 : ((allImportSpecifiers prog.body).map Specifier.localName).Nodup)
    (h2 : ∀ s ∈ allImportSpecifiers prog.body, s.localName ∈ prog.scopeVariables) :
    (getOrInsertImport prog ("@hi18n/react") ("Translate")
        ["@lingui/react", "@lingui/macro"] false).2 ≠
      (getOrInsertImport prog bookSource ("book") [] true).2 ∧
      ((getOrInsertImport prog ("@hi18n/react") ("Translate")
          ["@lingui/react", "@lingui/macro"] false).1 ≠ [] →
        (getOrInsertImport prog ("@hi18n/react") ("Translate")
          ["@lingui/react", "@lingui/macro"] false).2 ∉ prog.scopeVariables) ∧
      ((getOrInsertImport prog bookSource ("book") [] true).1 ≠ [] →
        (getOrInsertImport prog bookSource ("book") [] true).2 ∉ prog.scopeVariables) := by
  rcases getOrInsertImport_cases prog ("@hi18n/react") ("Translate")
      ["@lingui/react", "@lingui/macro"] false with ⟨l₁, hfr₁, heq₁⟩ | ⟨hfr₁, f₁, heq₁⟩ <;>
    rcases getOrInsertImport_cases prog bookSource ("book") [] true with
      ⟨l₂, hfr₂, heq₂⟩ | ⟨hfr₂, f₂, heq₂⟩
  · obtain ⟨s₁, hs₁, ht₁, hl₁, hshape₁⟩ := findReuse_extract _ _ _ _ hfr₁
    obtain ⟨s₂, hs₂, ht₂, hl₂, hshape₂⟩ := findReuse_extract _ _ _ _ hfr₂
    rcases hshape₁ with ⟨_, habs⟩ | ⟨k₁, hspec₁⟩
    · exact absurd habs (by decide)
    rcases hshape₂ with ⟨_, habs⟩ | ⟨k₂, hspec₂⟩
    · exact absurd habs (by decide)
    refine ⟨?_, ?_, ?_⟩
    · rw [heq₁, heq₂]
      intro hne
      have hne' : l₁ = l₂ := hne
      have hss : s₁ = s₂ := List.inj_on_of_nodup_map h1 hs₁ hs₂ (by rw [hl₁, hl₂, hne'])
      rw [hspec₁, hspec₂] at hss
      injection hss with hA hB hC
      exact absurd hA (by decide)
    · rw [heq₁]
      intro hcon
      exact absurd rfl hcon
    · rw [heq₂]
      intro hcon
      exact absurd rfl hcon
  · obtain ⟨s₁, hs₁, ht₁, hl₁, hshape₁⟩ := findReuse_extract _ _ _ _ hfr₁
    rcases hshape₁ with ⟨_, habs⟩ | ⟨k₁, hspec₁⟩
    · exact absurd habs (by decide)
    refine ⟨?_, ?_, ?_⟩
    · rw [heq₁, heq₂]
      intro hne
      have hne' : l₁ = pickNewName ("book") prog.scopeVariables := hne
      have hmem := h2 s₁ hs₁
      rw [hl₁] at hmem
      have hnm := pickNewName_not_mem ("book") prog.scopeVariables
      rw [← hne'] at hnm
      exact hnm hmem
    · rw [heq₁]
      intro hcon
      exact absurd rfl hcon
    · rw [heq₂]
      intro _
      exact pickNewName_not_mem ("book") prog.scopeVariables
  · obtain ⟨s₂, hs₂, ht₂, hl₂, hshape₂⟩ := findReuse_extract _ _ _ _ hfr₂
    rcases hshape₂ with ⟨_, habs⟩ | ⟨k₂, hspec₂⟩
    · exact absurd habs (by decide)
    refine ⟨?_, ?_, ?_⟩
    · rw [heq₁, heq₂]
      intro hne
      have hne' : pickNewName ("Translate") prog.scopeVariables = l₂ := hne
      have hmem := h2 s₂ hs₂
      rw [hl₂] at hmem
      have hnm := pickNewName_not_mem ("Translate") prog.scopeVariables
      rw [hne'] at hnm
      exact hnm hmem
    · rw [heq₁]
      intro _
      exact pickNewName_not_mem ("Translate") prog.scopeVariables
    · rw [heq₂]
      intro hcon
      exact absurd rfl hcon
  · refine ⟨?_, ?_, ?_⟩
    · rw [heq₁, heq₂]
      intro hne
      have hne' : pickNewName ("Translate") prog.scopeVariables =
          pickNewName ("book") prog.scopeVariables := hne
      obtain ⟨a, ha⟩ := pickNewName_append ("Translate") prog.scopeVariables
      obtain ⟨b, hb⟩ := pickNewName_append ("book") prog.scopeVariables
      rw [ha, hb] at hne'
      exact translate_append_ne_book_append a b hne'
    · rw [heq₁]
      intro _
      exact pickNewName_not_mem ("Translate") prog.scopeVariables
    · rw [heq₂]
      intro _
      exact pickNewName_not_mem ("book") prog.scopeVariables

/-- Witness for C4: one import of Trans from the lingui react package;
both calls synthesize fresh bindings and the returned names differ and
shadow nothing. -/
theorem C4_no_collision_invariant_witness :
    (getOrInsertImport
        ⟨[Stmt.importStmt
            ⟨"@lingui/react", ImportKind.value,
              [Specifier.importSpecifier "Trans" "Trans" ImportKind.value], false, 0⟩],
          0, ["Trans"]⟩
        ("@hi18n/react") ("Translate") ["@lingui/react", "@lingui/macro"] false).2 ≠
      (getOrInsertImport
        ⟨[Stmt.importStmt
            ⟨"@lingui/react", ImportKind.value,
              [Specifier.importSpecifier "Trans" "Trans" ImportKind.value], false, 0⟩],
          0, ["Trans"]⟩
        ("./book") ("book") [] true).2 ∧
      ((getOrInsertImport
          ⟨[Stmt.importStmt
              ⟨"@lingui/react", ImportKind.value,
                [Specifier.importSpecifier "Trans" "Trans" ImportKind.value], false, 0⟩],
            0, ["Trans"]⟩
          ("@hi18n/react") ("Translate") ["@lingui/react", "@lingui/macro"] false).1 ≠ [] →
        (getOrInsertImport
          ⟨[Stmt.importStmt
              ⟨"@lingui/react", ImportKind.value,
                [Specifier.importSpecifier "Trans" "Trans" ImportKind.value], false, 0⟩],
            0, ["Trans"]⟩
          ("@hi18n/react") ("Translate") ["@lingui/react", "@lingui/macro"] false).2 ∉
          (⟨[Stmt.importStmt
              ⟨"@lingui/react", ImportKind.value,
                [Specifier.importSpecifier "Trans" "Trans" ImportKind.value], false, 0⟩],
            0, ["Trans"]⟩ : Program).scopeVariables) ∧
      ((getOrInsertImport
          ⟨[Stmt.importStmt
              ⟨"@lingui/react", ImportKind.value,
                [Specifier.importSpecifier "Trans" "Trans" ImportKind.value], false, 0⟩],
            0, ["Trans"]⟩
          ("./book") ("book") [] true).1 ≠ [] →
        (getOrInsertImport
          ⟨[Stmt.importStmt
              ⟨"@lingui/react", ImportKind.value,
                [Specifier.importSpecifier "Trans" "Trans" ImportKind.value], false, 0⟩],
            0, ["Trans"]⟩
          ("./book") ("book") [] true).2 ∉
          (⟨[Stmt.importStmt
              ⟨"@lingui/react", ImportKind.value,
                [Specifier.importSpecifier "Trans" "Trans" ImportKind.value], false, 0⟩],
            0, ["Trans"]⟩ : Program).scopeVariables) := by
  exact C4_no_collision_invariant
    ⟨[Stmt.importStmt
        ⟨"@lingui/react", ImportKind.value,
          [Specifier.importSpecifier "Trans" "Trans" ImportKind.value], false, 0⟩],
      0, ["Trans"]⟩
    ("./book") (by decide) (by decide)

/-- C5: whenever the capture set is unsupported for rewriting — props is
not a PropsOf capture; some JSX attribute is a spread or has a name
outside the allow-list id, values, render, component, components; the
id capture is not a string literal; the render capture is neither a JSX
element nor a capture failure; the component capture is neither a
capture failure nor an eligible tag-name expression; or values and
components contribute a non-static key, a spread, or a duplicate key —
the listener reports the migrate-trans-jsx diagnostic with no fix. -/
theorem C5_unsupported_report_only (cap : CapturedMap)
    (h :
      (∀ attrs, cap.props ≠ CNode.propsOf attrs) ∨
        (∃ attrs, cap.props = CNode.propsOf attrs ∧ ∃ a ∈ attrs,
          a = JSXAttrEntry.spreadAttr ∨ a = JSXAttrEntry.attrEntry AttrName.otherName ∨
            ∃ n, a = JSXAttrEntry.attrEntry (AttrName.jsxIdent n) ∧
              n ∉ (["id", "values", "render", "component", "components"] : List String)) ∨
        (∀ s, cap.id ≠ CNode.literal (LitVal.strVal s)) ∨
        (cap.render ≠ CNode.captureFailure ∧ ∀ t, cap.render ≠ CNode.jsxElement t) ∨
        (cap.component ≠ CNode.captureFailure ∧
          (∀ name text, cap.component = CNode.identNode name text →
            eligibleForJSXTagNameExpression (JSXExprData.identE name) true = false) ∧
          (∀ obj c p text, cap.component = CNode.memberNode obj c p text →
            eligibleForJSXTagNameExpression (JSXExprData.memberE obj c p) true = false)) ∨
        ((∃ n ∈ [cap.values, cap.components],
            (∃ props, n = CNode.objectExpr props ∧ ∃ q ∈ props,
              q = ObjProp.nonProperty ∨ ∃ t, q = ObjProp.property none t) ∨
              ∃ elems, n = CNode.arrayExpr elems ∧ ArrElem.spreadElem ∈ elems) ∨
          ¬(keysOfNode cap.values ++ keysOfNode cap.components).Nodup)) :
    listenerOutcome cap = Outcome.reportOnly := by
  unfold listenerOutcome
  cases hp : cap.props with
  | captureFailure => rfl
  | literal v => rfl
  | jsxElement t => rfl
  | identNode a b => rfl
  | memberNode a b c dd => rfl
  | objectExpr props => rfl
  | arrayExpr elems => rfl
  | otherNode => rfl
  | propsOf attrs =>
    by_cases hall : attrs.all attrOk = true
    · dsimp only
      rw [if_pos hall]
      cases hid : cap.id with
      | propsOf a => rfl
      | captureFailure => rfl
      | jsxElement t => rfl
      | identNode a b => rfl
      | memberNode a b c dd => rfl
      | objectExpr props => rfl
      | arrayExpr elems => rfl
      | otherNode => rfl
      | literal v =>
        cases v with
        | nonStrVal => rfl
        | strVal idv =>
          dsimp only
          cases hr : checkRenderNode cap.render with
          | none => rfl
          | some r1 =>
            dsimp only
            cases hc : checkComponentNode r1 cap.component with
            | none => rfl
            | some r2 =>
              dsimp only
              cases hv1 : addValuesNode [] cap.values with
              | none => rfl
              | some p1 =>
                dsimp only
                cases hv2 : addValuesNode p1 cap.components with
                | none => rfl
                | some p2 =>
                  exfalso
                  rcases h with h1 | h2 | h3 | h4 | h5 | h6
                  · exact h1 attrs hp
                  · obtain ⟨attrs', hattrs', a, ha, hbad⟩ := h2
                    rw [hp] at hattrs'
                    injection hattrs' with he
                    subst he
                    have hok := List.all_eq_true.mp hall a ha
                    rcases hbad with rfl | rfl | ⟨n, rfl, hnotin⟩
                    · simp [attrOk] at hok
                    · simp [attrOk] at hok
                    · simp [attrOk, MIGRATABLE_PROP_NAMES, List.contains] at hok
                      simp at hnotin
                      tauto
                  · exact h3 idv hid
                  · obtain ⟨hnf, hnj⟩ := h4
                    cases hrc : cap.render with
                    | captureFailure => exact hnf hrc
                    | jsxElement t => exact hnj t hrc
                    | propsOf a => rw [hrc] at hr; simp [checkRenderNode] at hr
                    | literal v => rw [hrc] at hr; simp [checkRenderNode] at hr
                    | identNode a b => rw [hrc] at hr; simp [checkRenderNode] at hr
                    | memberNode a b c dd => rw [hrc] at hr; simp [checkRenderNode] at hr
                    | objectExpr props => rw [hrc] at hr; simp [checkRenderNode] at hr
                    | arrayExpr elems => rw [hrc] at hr; simp [checkRenderNode] at hr
                    | otherNode => rw [hrc] at hr; simp [checkRenderNode] at hr
                  · obtain ⟨hnf, hni, hnm⟩ := h5
                    cases hcc : cap.component with
                    | captureFailure => exact hnf hcc
                    | identNode name text =>
                      rw [hcc] at hc
                      rw [checkComponentNode, hni name text hcc] at hc
                      simp at hc
                    | memberNode obj c p text =>
                      rw [hcc] at hc
                      rw [checkComponentNode, hnm obj c p text hcc] at hc
                      simp at hc
                    | propsOf a => rw [hcc] at hc; simp [checkComponentNode] at hc
                    | literal v => rw [hcc] at hc; simp [checkComponentNode] at hc
                    | jsxElement t => rw [hcc] at hc; simp [checkComponentNode] at hc
                    | objectExpr props => rw [hcc] at hc; simp [checkComponentNode] at hc
                    | arrayExpr elems => rw [hcc] at hc; simp [checkComponentNode] at hc
                    | otherNode => rw [hcc] at hc; simp [checkComponentNode] at hc
                  · rcases h6 with ⟨n, hn, hbad⟩ | hdup
                    · simp only [List.mem_cons, List.mem_singleton, List.not_mem_nil,
                        or_false] at hn
                      rcases hn with rfl | rfl
                      · rcases hbad with ⟨props, hnode, hbadprop⟩ | ⟨elems, hnode, hsp⟩
                        · rw [hnode] at hv1
                          rw [addValuesNode, addObjectProps_none_of_bad props [] hbadprop]
                            at hv1
                          exact Option.noConfusion hv1
                        · rw [hnode] at hv1
                          rw [addValuesNode, addArrayElems_none_of_spread elems [] 0 hsp]
                            at hv1
                          exact Option.noConfusion hv1
                      · rcases hbad with ⟨props, hnode, hbadprop⟩ | ⟨elems, hnode, hsp⟩
                        · rw [hnode] at hv2
                          rw [addValuesNode, addObjectProps_none_of_bad props p1 hbadprop]
                            at hv2
                          exact Option.noConfusion hv2
                        · rw [hnode] at hv2
                          rw [addValuesNode, addArrayElems_none_of_spread elems p1 0 hsp]
                            at hv2
                          exact Option.noConfusion hv2
                    · have k1 := addValuesNode_keys cap.values [] p1 hv1
                      have n1 := addValuesNode_nodup cap.values [] p1 hv1 (by simp)
                      have k2 := addValuesNode_keys cap.components p1 p2 hv2
                      have n2 := addValuesNode_nodup cap.components p1 p2 hv2 n1
                      rw [k2, k1] at n2
                      simp only [List.map_nil, List.nil_append] at n2
                      exact hdup n2
    · dsimp only
      rw [if_neg hall]

/-- Witness for C5: a props capture carrying a spread attribute forces
the report-only outcome. -/
theorem C5_unsupported_report_only_witness :
    listenerOutcome
        ⟨CNode.propsOf [JSXAttrEntry.spreadAttr], CNode.captureFailure, CNode.captureFailure,
          CNode.captureFailure, CNode.captureFailure, CNode.captureFailure⟩ =
      Outcome.reportOnly :=
  C5_unsupported_report_only
    ⟨CNode.propsOf [JSXAttrEntry.spreadAttr], CNode.captureFailure, CNode.captureFailure,
      CNode.captureFailure, CNode.captureFailure, CNode.captureFailure⟩
    (Or.inr (Or.inl ⟨[JSXAttrEntry.spreadAttr], rfl, JSXAttrEntry.spreadAttr, by simp,
      Or.inl rfl⟩))

end Hi18n
